import Mathlib

/-!
# Student API (`main.go`): a shallow embedding of the four HTTP handlers

The Go program keeps one global `students : map[string]Student` behind a
mutex and serves four handlers: `createStudent`, `getAllStudents`,
`getStudent` and `deleteStudent`.  Every handler runs its map access inside
`mu.Lock()` / `mu.Unlock()`, so handlers are modelled as atomic steps
`StudentMap → StudentMap × Response` (explicit state passing).

What is a parameter of the model rather than part of it:

* the result of `json.NewDecoder(r.Body).Decode(&student)` is the argument
  `decoded : Except String Student`;
* the value of `uuid.New().String()` is the argument `newUUID`;
* the path variable `mux.Vars(r)["studentId"]` is the argument `studentId`;
* the `logger.Println` lines do not influence the map or the response and are
  left out.

Go's `int` is rendered as `Int`: the handlers only store and re-encode `Age`.
-/

namespace StudentApi

/-! ## Data model -/

/-- The Go struct `Student`, field for field. -/
structure Student where
  EnrollmentNumber : String
  Name : String
  Age : Int
  Class : String
  Subject : String
  IsDeleted : Bool
deriving DecidableEq, Repr

/-- Go's zero value of `Student`, what `students[k]` yields for a missing key. -/
def Student.zero : Student :=
  { EnrollmentNumber := "", Name := "", Age := 0, Class := "", Subject := "", IsDeleted := false }

/-- Keys of an association list, in order. -/
def keysOf (es : List (String × Student)) : List String :=
  es.map Prod.fst

/-- Lookup in an association list: the value of the first entry with key `k`. -/
def entriesGet (k : String) : List (String × Student) → Option Student
  | [] => none
  | (k', v') :: rest => if k' = k then some v' else entriesGet k rest

/-- Assignment in an association list: overwrite the entry with key `k` in
place when there is one, otherwise add a new entry. -/
def entriesSet (k : String) (v : Student) : List (String × Student) → List (String × Student)
  | [] => [(k, v)]
  | (k', v') :: rest => if k' = k then (k, v) :: rest else (k', v') :: entriesSet k v rest

theorem keysOf_entriesSet (k : String) (v : Student) (es : List (String × Student)) :
    keysOf (entriesSet k v es) = if k ∈ keysOf es then keysOf es else keysOf es ++ [k] := by
  induction es with
  | nil => simp [entriesSet, keysOf]
  | cons e rest ih =>
    obtain ⟨k', v'⟩ := e
    by_cases h : k' = k
    · subst h
      simp [entriesSet, keysOf]
    · have h' : ¬ k = k' := fun e => h e.symm
      simp only [keysOf] at ih
      simp only [entriesSet, h, if_false, keysOf, List.map_cons, List.mem_cons, h', false_or, ih]
      split <;> simp

theorem nodup_keysOf_entriesSet (k : String) (v : Student) (es : List (String × Student))
    (h : (keysOf es).Nodup) : (keysOf (entriesSet k v es)).Nodup := by
  rw [keysOf_entriesSet]
  split
  · exact h
  · rename_i hk
    exact List.Nodup.append h (List.nodup_singleton k) (by simpa using hk)

/-- The Go type `map[string]Student`: finitely many entries, no key twice.
The order of `entries` stands for one enumeration order of the map; Go leaves
that order unspecified, and no statement below depends on it. -/
structure StudentMap where
  entries : List (String × Student)
  nodup : (keysOf entries).Nodup

/-- The initial value `make(map[string]Student)`. -/
def StudentMap.empty : StudentMap :=
  ⟨[], List.nodup_nil⟩

/-- The keys of the map. -/
def StudentMap.keys (m : StudentMap) : List String :=
  keysOf m.entries

/-- Number of entries, Go's `len(students)`. -/
def StudentMap.len (m : StudentMap) : Nat :=
  m.entries.length

/-- The entry stored under `k`, if any. -/
def StudentMap.lookup (m : StudentMap) (k : String) : Option Student :=
  entriesGet k m.entries

/-- Go's two-value index expression `student, exists := students[k]`: the zero
`Student` and `false` for a missing key. -/
def StudentMap.index (m : StudentMap) (k : String) : Student × Bool :=
  match m.lookup k with
  | some v => (v, true)
  | none => (Student.zero, false)

/-- Go's map assignment `students[k] = v`. -/
def StudentMap.set (m : StudentMap) (k : String) (v : Student) : StudentMap :=
  ⟨entriesSet k v m.entries, nodup_keysOf_entriesSet k v m.entries m.nodup⟩

/-! ## JSON values and HTTP responses -/

/-- JSON values, the output of `encoding/json`. -/
inductive JSON where
  | null
  | bool (b : Bool)
  | number (n : Int)
  | string (s : String)
  | array (items : List JSON)
  | object (fields : List (String × JSON))

/-- Encoding of a `Student` by `encoding/json`: an object with the keys of the
struct tags, in field order. -/
def encodeStudent (s : Student) : JSON :=
  JSON.object
    [ ("enrollmentNumber", JSON.string s.EnrollmentNumber),
      ("name", JSON.string s.Name),
      ("age", JSON.number s.Age),
      ("class", JSON.string s.Class),
      ("subject", JSON.string s.Subject),
      ("isDeleted", JSON.bool s.IsDeleted) ]

/-- Encoding of a `map[string]string` given as its list of entries. -/
def encodeStringMap (kvs : List (String × String)) : JSON :=
  JSON.object (kvs.map (fun kv => (kv.1, JSON.string kv.2)))

/-- A Go slice `[]Student`: `none` is the nil slice (the value of
`var result []Student`), `some xs` a non-nil slice with elements `xs`. -/
abbrev StudentSlice := Option (List Student)

/-- Go's `append(slice, x)`: appending to the nil slice allocates. -/
def StudentSlice.append (slice : StudentSlice) (x : Student) : StudentSlice :=
  match slice with
  | none => some [x]
  | some xs => some (xs ++ [x])

/-- Elements of a slice; the nil slice has none. -/
def StudentSlice.toList (slice : StudentSlice) : List Student :=
  match slice with
  | none => []
  | some xs => xs

/-- Encoding of a `[]Student` by `encoding/json`: a nil slice encodes as the
JSON value `null`, any other slice as a JSON array. -/
def encodeStudentSlice (slice : StudentSlice) : JSON :=
  match slice with
  | none => JSON.null
  | some xs => JSON.array (xs.map encodeStudent)

/-- What a handler wrote to the `http.ResponseWriter`. -/
inductive Body where
  | empty
  | text (msg : String)
  | json (value : JSON)

/-- The HTTP response: status code, `Content-Type` header and body. -/
structure Response where
  status : Nat
  contentType : Option String
  body : Body

def StatusOK : Nat := 200
def StatusNoContent : Nat := 204
def StatusBadRequest : Nat := 400
def StatusNotFound : Nat := 404

/-- Go's `http.Error(w, msg, code)`: plain-text body `msg` and a newline. -/
def httpError (msg : String) (code : Nat) : Response :=
  { status := code, contentType := some "text/plain; charset=utf-8", body := Body.text (msg ++ "\n") }

/-- The effect of `w.Header().Set("Content-Type", "application/json")` followed
by `json.NewEncoder(w).Encode(v)` with no `WriteHeader` before: status 200. -/
def jsonOK (value : JSON) : Response :=
  { status := StatusOK, contentType := some "application/json", body := Body.json value }

/-! ## The handlers -/

/-- The handler `createStudent`.  `decoded` is the outcome of
`json.NewDecoder(r.Body).Decode(&student)`: the record read from the body, or
the decoder's error. -/
def createStudent (students : StudentMap) (decoded : Except String Student)
    (newUUID : String) : StudentMap × Response :=
  match decoded with
  | Except.error err => (students, httpError err StatusBadRequest)
  | Except.ok student =>
    let student := { student with EnrollmentNumber := newUUID }
    let students := students.set student.EnrollmentNumber student
    (students, jsonOK (encodeStringMap [("enrollmentNumber", student.EnrollmentNumber)]))

/-- The loop of `getAllStudents`: `result` after ranging over the map. -/
def activeStudents (students : StudentMap) : StudentSlice :=
  students.entries.foldl
    (fun result entry => if !entry.2.IsDeleted then StudentSlice.append result entry.2 else result)
    none

/-- The handler `getAllStudents`. -/
def getAllStudents (students : StudentMap) : StudentMap × Response :=
  let result := activeStudents students
  (students, jsonOK (encodeStudentSlice result))

/-- The handler `getStudent`. -/
def getStudent (students : StudentMap) (studentId : String) : StudentMap × Response :=
  let (student, found) := students.index studentId
  if !found || student.IsDeleted then
    (students, httpError "Student not found" StatusNotFound)
  else
    (students, jsonOK (encodeStudent student))

/-- The handler `deleteStudent`. -/
def deleteStudent (students : StudentMap) (studentId : String) : StudentMap × Response :=
  let (student, found) := students.index studentId
  if found && !student.IsDeleted then
    let student := { student with IsDeleted := true }
    let students := students.set studentId student
    (students, { status := StatusNoContent, contentType := none, body := Body.empty })
  else
    (students, httpError "Student not found" StatusNotFound)

/-! ## Requests and call sequences -/

/-- The four routes registered in `main`. -/
inductive Request where
  | create (decoded : Except String Student) (newUUID : String)
  | list
  | get (studentId : String)
  | delete (studentId : String)

/-- The router: each request goes to its handler. -/
def handle (students : StudentMap) : Request → StudentMap × Response
  | Request.create decoded newUUID => createStudent students decoded newUUID
  | Request.list => getAllStudents students
  | Request.get studentId => getStudent students studentId
  | Request.delete studentId => deleteStudent students studentId

/-- The two state-changing calls of the store: a create whose body decoded to
`student` and whose generated identifier is `id`, and a delete of `id`. -/
inductive Op where
  | insert (student : Student) (id : String)
  | softDelete (id : String)
deriving DecidableEq

/-- One call, as a step on the map. -/
def Op.step (students : StudentMap) : Op → StudentMap
  | Op.insert student id => (createStudent students (Except.ok student) id).1
  | Op.softDelete id => (deleteStudent students id).1

/-- The map after a sequence of calls, starting from `students`. -/
def run (students : StudentMap) (ops : List Op) : StudentMap :=
  ops.foldl Op.step students

/-- The identifiers generated for the inserts of a call sequence, in order. -/
def insertIds : List Op → List String
  | [] => []
  | Op.insert _ id :: rest => id :: insertIds rest
  | Op.softDelete _ :: rest => insertIds rest

/-- Whether the call `op`, made on `students`, is a delete of `id` that
answers 204. -/
def Op.deletes (students : StudentMap) (op : Op) (id : String) : Bool :=
  match op with
  | Op.softDelete id' =>
    decide (id' = id) && decide ((deleteStudent students id').2.status = StatusNoContent)
  | Op.insert _ _ => false

/-- Whether some delete of `id` in the call sequence, started from `students`,
answered 204. -/
def deleteSucceeded (students : StudentMap) : List Op → String → Bool
  | [], _ => false
  | op :: rest, id => op.deletes students id || deleteSucceeded (op.step students) rest id

/-- A run of creates only: each pair is a decoded body and the identifier
generated for it. -/
def insertOps (inserts : List (Student × String)) : List Op :=
  inserts.map (fun p => Op.insert p.1 p.2)

/-- The entries the loop of `getAllStudents` keeps. -/
def activeEntries (students : StudentMap) : List (String × Student) :=
  students.entries.filter (fun entry => !entry.2.IsDeleted)

/-! ## Example data -/

/-- The record of the end-to-end scenario, as decoded from the body. -/
def ann : Student :=
  { EnrollmentNumber := "", Name := "Ann", Age := 20, Class := "A", Subject := "Math", IsDeleted := false }

/-- A decoded body of an active record that names an identifier of its own. -/
def annWithId : Student :=
  { EnrollmentNumber := "chosen-by-client", Name := "Ann", Age := 20, Class := "A", Subject := "Math",
    IsDeleted := false }

/-- A decoded body that sets both fields a client is not meant to choose. -/
def annTombstoned : Student :=
  { EnrollmentNumber := "chosen-by-client", Name := "Ann", Age := 20, Class := "A", Subject := "Math",
    IsDeleted := true }

/-- The store after one create of `ann` with generated identifier "u1". -/
def oneStudent : StudentMap :=
  (createStudent StudentMap.empty (Except.ok ann) "u1").1

/-! ## Facts about the map -/

theorem entriesGet_entriesSet_self (k : String) (v : Student) (es : List (String × Student)) :
    entriesGet k (entriesSet k v es) = some v := by
  induction es with
  | nil => simp [entriesSet, entriesGet]
  | cons e rest ih =>
    obtain ⟨k', v'⟩ := e
    by_cases h : k' = k
    · simp [entriesSet, entriesGet, h]
    · simp [entriesSet, entriesGet, h, ih]

theorem entriesGet_entriesSet_ne (k k' : String) (v : Student) (es : List (String × Student))
    (hne : k' ≠ k) : entriesGet k' (entriesSet k v es) = entriesGet k' es := by
  induction es with
  | nil => simp [entriesSet, entriesGet, Ne.symm hne]
  | cons e rest ih =>
    obtain ⟨k₀, v₀⟩ := e
    by_cases h : k₀ = k
    · subst h
      simp [entriesSet, entriesGet, Ne.symm hne]
    · by_cases h' : k₀ = k'
      · subst h'
        simp [entriesSet, entriesGet, h]
      · simp [entriesSet, entriesGet, h, h', ih]

theorem entriesGet_eq_none_iff (k : String) (es : List (String × Student)) :
    entriesGet k es = none ↔ k ∉ keysOf es := by
  induction es with
  | nil => simp [entriesGet, keysOf]
  | cons e rest ih =>
    obtain ⟨k₀, v₀⟩ := e
    by_cases h : k₀ = k
    · simp [entriesGet, keysOf, h]
    · have h' : ¬ k = k₀ := fun e => h e.symm
      simp only [keysOf] at ih
      simp [entriesGet, keysOf, h, h', ih]

theorem entriesGet_eq_some_iff (k : String) (v : Student) (es : List (String × Student))
    (hnd : (keysOf es).Nodup) : entriesGet k es = some v ↔ (k, v) ∈ es := by
  induction es with
  | nil => simp [entriesGet]
  | cons e rest ih =>
    obtain ⟨k₀, v₀⟩ := e
    have hnd' : k₀ ∉ keysOf rest ∧ (keysOf rest).Nodup := by
      simpa [keysOf] using hnd
    by_cases h : k₀ = k
    · subst h
      have hno : ∀ w, (k₀, w) ∉ rest := by
        intro w hw
        exact hnd'.1 (List.mem_map_of_mem Prod.fst hw)
      simp [entriesGet, hno]
      exact eq_comm
    · have h' : ¬ k = k₀ := fun e => h e.symm
      simp [entriesGet, h, h', ih hnd'.2]

theorem StudentMap.lookup_set_self (m : StudentMap) (k : String) (v : Student) :
    (m.set k v).lookup k = some v :=
  entriesGet_entriesSet_self k v m.entries

theorem StudentMap.lookup_set_ne (m : StudentMap) (k k' : String) (v : Student) (hne : k' ≠ k) :
    (m.set k v).lookup k' = m.lookup k' :=
  entriesGet_entriesSet_ne k k' v m.entries hne

theorem StudentMap.lookup_eq_none_iff (m : StudentMap) (k : String) :
    m.lookup k = none ↔ k ∉ m.keys :=
  entriesGet_eq_none_iff k m.entries

theorem StudentMap.lookup_eq_some_iff (m : StudentMap) (k : String) (v : Student) :
    m.lookup k = some v ↔ (k, v) ∈ m.entries :=
  entriesGet_eq_some_iff k v m.entries m.nodup

theorem StudentMap.mem_keys_of_lookup {m : StudentMap} {k : String} {v : Student}
    (h : m.lookup k = some v) : k ∈ m.keys := by
  by_contra hk
  rw [(m.lookup_eq_none_iff k).mpr hk] at h
  cases h

theorem StudentMap.keys_set_of_mem (m : StudentMap) (k : String) (v : Student) (hk : k ∈ m.keys) :
    (m.set k v).keys = m.keys := by
  show keysOf (entriesSet k v m.entries) = keysOf m.entries
  rw [keysOf_entriesSet]
  exact if_pos hk

theorem StudentMap.keys_set_of_not_mem (m : StudentMap) (k : String) (v : Student)
    (hk : k ∉ m.keys) : (m.set k v).keys = m.keys ++ [k] := by
  show keysOf (entriesSet k v m.entries) = keysOf m.entries ++ [k]
  rw [keysOf_entriesSet]
  exact if_neg hk

theorem StudentMap.len_eq_length_keys (m : StudentMap) : m.len = m.keys.length := by
  simp [StudentMap.len, StudentMap.keys, keysOf]

/-! ## Facts about the handlers -/

theorem index_of_lookup_some {m : StudentMap} {k : String} {v : Student}
    (h : m.lookup k = some v) : m.index k = (v, true) := by
  simp [StudentMap.index, h]

theorem index_of_lookup_none {m : StudentMap} {k : String}
    (h : m.lookup k = none) : m.index k = (Student.zero, false) := by
  simp [StudentMap.index, h]

theorem createStudent_ok (m : StudentMap) (s : Student) (id : String) :
    createStudent m (Except.ok s) id
      = (m.set id { s with EnrollmentNumber := id },
          jsonOK (JSON.object [("enrollmentNumber", JSON.string id)])) := by
  simp [createStudent, encodeStringMap]

theorem createStudent_error (m : StudentMap) (err : String) (id : String) :
    createStudent m (Except.error err) id = (m, httpError err StatusBadRequest) := by
  simp [createStudent]

theorem getStudent_active {m : StudentMap} {k : String} {v : Student}
    (h : m.lookup k = some v) (hv : v.IsDeleted = false) :
    getStudent m k = (m, jsonOK (encodeStudent v)) := by
  simp [getStudent, index_of_lookup_some h, hv]

theorem getStudent_deleted {m : StudentMap} {k : String} {v : Student}
    (h : m.lookup k = some v) (hv : v.IsDeleted = true) :
    getStudent m k = (m, httpError "Student not found" StatusNotFound) := by
  simp [getStudent, index_of_lookup_some h, hv]

theorem getStudent_absent {m : StudentMap} {k : String} (h : m.lookup k = none) :
    getStudent m k = (m, httpError "Student not found" StatusNotFound) := by
  simp [getStudent, index_of_lookup_none h]

theorem deleteStudent_active {m : StudentMap} {k : String} {v : Student}
    (h : m.lookup k = some v) (hv : v.IsDeleted = false) :
    deleteStudent m k
      = (m.set k { v with IsDeleted := true },
          { status := StatusNoContent, contentType := none, body := Body.empty }) := by
  simp [deleteStudent, index_of_lookup_some h, hv]

theorem deleteStudent_deleted {m : StudentMap} {k : String} {v : Student}
    (h : m.lookup k = some v) (hv : v.IsDeleted = true) :
    deleteStudent m k = (m, httpError "Student not found" StatusNotFound) := by
  simp [deleteStudent, index_of_lookup_some h, hv]

theorem deleteStudent_absent {m : StudentMap} {k : String} (h : m.lookup k = none) :
    deleteStudent m k = (m, httpError "Student not found" StatusNotFound) := by
  simp [deleteStudent, index_of_lookup_none h]

/-- The three situations a handler can find a key in. -/
theorem lookup_cases (m : StudentMap) (k : String) :
    m.lookup k = none
      ∨ (∃ v, m.lookup k = some v ∧ v.IsDeleted = false)
      ∨ (∃ v, m.lookup k = some v ∧ v.IsDeleted = true) := by
  cases h : m.lookup k with
  | none => exact Or.inl rfl
  | some v =>
    cases hv : v.IsDeleted with
    | false => exact Or.inr (Or.inl ⟨v, rfl, hv⟩)
    | true => exact Or.inr (Or.inr ⟨v, rfl, hv⟩)

theorem no_active_of_absent {m : StudentMap} {k : String} (h : m.lookup k = none) :
    ¬ ∃ v : Student, m.lookup k = some v ∧ v.IsDeleted = false := by
  rintro ⟨w, hw, _⟩
  rw [h] at hw
  exact Option.noConfusion hw

theorem no_active_of_deleted {m : StudentMap} {k : String} {v : Student}
    (h : m.lookup k = some v) (hv : v.IsDeleted = true) :
    ¬ ∃ v : Student, m.lookup k = some v ∧ v.IsDeleted = false := by
  rintro ⟨w, hw, ha⟩
  have hwv : v = w := Option.some.inj (h.symm.trans hw)
  rw [← hwv, hv] at ha
  exact Bool.noConfusion ha

theorem status_httpError_notFound_ne_ok :
    (httpError "Student not found" StatusNotFound).status ≠ StatusOK := by decide

theorem status_httpError_notFound_ne_noContent :
    (httpError "Student not found" StatusNotFound).status ≠ StatusNoContent := by decide

theorem status_jsonOK_ne_notFound (j : JSON) : (jsonOK j).status ≠ StatusNotFound := by
  simp [jsonOK, StatusOK, StatusNotFound]

theorem foldl_append_active (es : List (String × Student)) (acc : StudentSlice) :
    es.foldl
        (fun result entry =>
          if !entry.2.IsDeleted then StudentSlice.append result entry.2 else result) acc
      = if es.filter (fun entry => !entry.2.IsDeleted) = [] then acc
        else some (StudentSlice.toList acc
          ++ (es.filter (fun entry => !entry.2.IsDeleted)).map Prod.snd) := by
  induction es generalizing acc with
  | nil => simp
  | cons e rest ih =>
    rw [List.foldl_cons, ih]
    cases hd : e.2.IsDeleted with
    | true =>
      have hf : (e :: rest).filter (fun entry => !entry.2.IsDeleted)
          = rest.filter (fun entry => !entry.2.IsDeleted) :=
        List.filter_cons_of_neg (by simp [hd])
      rw [hf]
      simp
    | false =>
      have hf : (e :: rest).filter (fun entry => !entry.2.IsDeleted)
          = e :: rest.filter (fun entry => !entry.2.IsDeleted) :=
        List.filter_cons_of_pos (by simp [hd])
      rw [hf]
      cases acc with
      | none =>
        by_cases hr : rest.filter (fun entry => !entry.2.IsDeleted) = []
        · simp [hr, StudentSlice.append, StudentSlice.toList]
        · simp [hr, StudentSlice.append, StudentSlice.toList]
      | some xs =>
        by_cases hr : rest.filter (fun entry => !entry.2.IsDeleted) = []
        · simp [hr, StudentSlice.append, StudentSlice.toList]
        · simp [hr, StudentSlice.append, StudentSlice.toList]

theorem activeStudents_eq (students : StudentMap) :
    activeStudents students
      = if activeEntries students = [] then none
        else some ((activeEntries students).map Prod.snd) := by
  unfold activeStudents activeEntries
  rw [foldl_append_active]
  simp [StudentSlice.toList]

theorem toList_activeStudents (students : StudentMap) :
    StudentSlice.toList (activeStudents students) = (activeEntries students).map Prod.snd := by
  rw [activeStudents_eq]
  by_cases h : activeEntries students = []
  · simp [h, StudentSlice.toList]
  · simp [h, StudentSlice.toList]

theorem mem_activeEntries (students : StudentMap) (k : String) (v : Student) :
    (k, v) ∈ activeEntries students ↔ students.lookup k = some v ∧ v.IsDeleted = false := by
  simp [activeEntries, List.mem_filter, StudentMap.lookup_eq_some_iff]

theorem mem_activeStudents (students : StudentMap) (r : Student) :
    r ∈ StudentSlice.toList (activeStudents students)
      ↔ ∃ k : String, students.lookup k = some r ∧ r.IsDeleted = false := by
  rw [toList_activeStudents]
  constructor
  · intro h
    obtain ⟨⟨k, v⟩, he, rfl⟩ := List.mem_map.mp h
    exact ⟨k, (mem_activeEntries students k v).mp he⟩
  · rintro ⟨k, hk⟩
    exact List.mem_map.mpr ⟨(k, r), (mem_activeEntries students k r).mpr hk, rfl⟩

theorem nodup_keysOf_activeEntries (students : StudentMap) :
    (keysOf (activeEntries students)).Nodup :=
  List.Nodup.sublist (List.Sublist.map Prod.fst (List.filter_sublist _)) students.nodup

theorem map_index_keysOf_activeEntries (students : StudentMap) :
    (keysOf (activeEntries students)).map (fun k => (students.index k).1)
      = (activeEntries students).map Prod.snd := by
  unfold keysOf
  rw [List.map_map]
  apply List.map_congr_left
  rintro ⟨k, v⟩ he
  have hl := ((mem_activeEntries students k v).mp he).1
  simp [index_of_lookup_some hl]

/-! ## Facts about single steps and call sequences -/

theorem deleteStudent_lookup_ne (m : StudentMap) (id k : String) (hne : k ≠ id) :
    (deleteStudent m id).1.lookup k = m.lookup k := by
  rcases lookup_cases m id with h | ⟨v, h, hv⟩ | ⟨v, h, hv⟩
  · rw [deleteStudent_absent h]
  · rw [deleteStudent_active h hv]
    exact StudentMap.lookup_set_ne _ _ _ _ hne
  · rw [deleteStudent_deleted h hv]

theorem deleteStudent_keys (m : StudentMap) (id : String) :
    (deleteStudent m id).1.keys = m.keys := by
  rcases lookup_cases m id with h | ⟨v, h, hv⟩ | ⟨v, h, hv⟩
  · rw [deleteStudent_absent h]
  · rw [deleteStudent_active h hv]
    exact StudentMap.keys_set_of_mem _ _ _ (StudentMap.mem_keys_of_lookup h)
  · rw [deleteStudent_deleted h hv]

theorem deleteStudent_status_noContent_iff (m : StudentMap) (id : String) :
    (deleteStudent m id).2.status = StatusNoContent
      ↔ ∃ v : Student, m.lookup id = some v ∧ v.IsDeleted = false := by
  rcases lookup_cases m id with h | ⟨v, h, hv⟩ | ⟨v, h, hv⟩
  · rw [deleteStudent_absent h]
    exact ⟨fun hs => absurd hs status_httpError_notFound_ne_noContent,
      fun hx => absurd hx (no_active_of_absent h)⟩
  · rw [deleteStudent_active h hv]
    exact ⟨fun _ => ⟨v, h, hv⟩, fun _ => rfl⟩
  · rw [deleteStudent_deleted h hv]
    exact ⟨fun hs => absurd hs status_httpError_notFound_ne_noContent,
      fun hx => absurd hx (no_active_of_deleted h hv)⟩

theorem run_snoc (m : StudentMap) (pre : List Op) (op : Op) :
    run m (pre ++ [op]) = op.step (run m pre) := by
  simp [run, List.foldl_append]

theorem insertIds_append (xs ys : List Op) :
    insertIds (xs ++ ys) = insertIds xs ++ insertIds ys := by
  induction xs with
  | nil => rfl
  | cons op rest ih =>
    cases op with
    | insert s id => simp [insertIds, ih]
    | softDelete id => simp [insertIds, ih]

theorem mem_insertIds_iff (ops : List Op) (id : String) :
    id ∈ insertIds ops ↔ ∃ s : Student, Op.insert s id ∈ ops := by
  induction ops with
  | nil => simp [insertIds]
  | cons op rest ih =>
    cases op with
    | insert s id' =>
      simp only [insertIds, List.mem_cons, ih]
      constructor
      · rintro (rfl | ⟨s', hs'⟩)
        · exact ⟨s, Or.inl rfl⟩
        · exact ⟨s', Or.inr hs'⟩
      · rintro ⟨s', hs' | hs'⟩
        · injection hs' with _ hid
          exact Or.inl hid
        · exact Or.inr ⟨s', hs'⟩
    | softDelete id' =>
      simp only [insertIds, List.mem_cons, ih]
      constructor
      · rintro ⟨s', hs'⟩
        exact ⟨s', Or.inr hs'⟩
      · rintro ⟨s', hs' | hs'⟩
        · cases hs'
        · exact ⟨s', hs'⟩

theorem deleteSucceeded_snoc (m : StudentMap) (pre : List Op) (op : Op) (id : String) :
    deleteSucceeded m (pre ++ [op]) id
      = (deleteSucceeded m pre id || op.deletes (run m pre) id) := by
  induction pre generalizing m with
  | nil => simp [deleteSucceeded, run]
  | cons o rest ih =>
    have hrun : run m (o :: rest) = run (o.step m) rest := rfl
    show (o.deletes m id || deleteSucceeded (o.step m) (rest ++ [op]) id) = _
    rw [ih, hrun]
    show _ = ((o.deletes m id || deleteSucceeded (o.step m) rest id) || _)
    rw [Bool.or_assoc]

/-- Keys of the map after a call sequence from the empty map: the identifiers
of its inserts, in call order. -/
theorem keys_run (ops : List Op) (hnd : (insertIds ops).Nodup) :
    (run StudentMap.empty ops).keys = insertIds ops := by
  induction ops using List.reverseRecOn with
  | nil => rfl
  | append_singleton pre op ih =>
    rw [insertIds_append] at hnd
    have hpre : (insertIds pre).Nodup := (List.nodup_append.mp hnd).1
    rw [run_snoc, insertIds_append]
    cases op with
    | insert s id =>
      have hfresh : id ∉ (run StudentMap.empty pre).keys := by
        rw [ih hpre]
        intro hmem
        exact (List.nodup_append.mp hnd).2.2 hmem (by simp [insertIds])
      show (createStudent (run StudentMap.empty pre) (Except.ok s) id).1.keys = _
      rw [createStudent_ok]
      show ((run StudentMap.empty pre).set id _).keys = _
      rw [StudentMap.keys_set_of_not_mem _ _ _ hfresh, ih hpre]
      rfl
    | softDelete id =>
      show (deleteStudent (run StudentMap.empty pre) id).1.keys = _
      rw [deleteStudent_keys, ih hpre]
      simp [insertIds]

/-- A delete can only have answered 204 for an identifier some insert of the
sequence generated. -/
theorem mem_insertIds_of_deleteSucceeded (ops : List Op) (hnd : (insertIds ops).Nodup)
    (id : String) (hdel : deleteSucceeded StudentMap.empty ops id = true) :
    id ∈ insertIds ops := by
  induction ops using List.reverseRecOn with
  | nil => simp [deleteSucceeded] at hdel
  | append_singleton pre op ih =>
    rw [insertIds_append] at hnd
    have hpre : (insertIds pre).Nodup := (List.nodup_append.mp hnd).1
    rw [deleteSucceeded_snoc, Bool.or_eq_true] at hdel
    rw [insertIds_append]
    apply List.mem_append_left
    rcases hdel with hdel | hdel
    · exact ih hpre hdel
    · cases op with
      | insert s id' => simp [Op.deletes] at hdel
      | softDelete id' =>
        simp only [Op.deletes, Bool.and_eq_true, decide_eq_true_eq] at hdel
        obtain ⟨rfl, hstatus⟩ := hdel
        obtain ⟨v, hv, _⟩ := (deleteStudent_status_noContent_iff _ _).mp hstatus
        rw [← keys_run pre hpre]
        exact StudentMap.mem_keys_of_lookup hv

/-- The record held for an insert after a call sequence from the empty map:
the decoded record with the generated identifier, tombstoned when the body
said so or a delete of the identifier answered 204. -/
theorem lookup_run_of_insert (ops : List Op) (hnd : (insertIds ops).Nodup)
    (s : Student) (id : String) (hmem : Op.insert s id ∈ ops) :
    (run StudentMap.empty ops).lookup id
      = some { s with EnrollmentNumber := id,
                      IsDeleted := s.IsDeleted || deleteSucceeded StudentMap.empty ops id } := by
  induction ops using List.reverseRecOn with
  | nil => simp at hmem
  | append_singleton pre op ih =>
    have hnd' := hnd
    rw [insertIds_append] at hnd'
    have hpre : (insertIds pre).Nodup := (List.nodup_append.mp hnd').1
    rw [run_snoc, deleteSucceeded_snoc]
    cases op with
    | insert s₀ id₀ =>
      have hfresh : id₀ ∉ insertIds pre := by
        intro hin
        exact (List.nodup_append.mp hnd').2.2 hin (by simp [insertIds])
      show (createStudent (run StudentMap.empty pre) (Except.ok s₀) id₀).1.lookup id = _
      rw [createStudent_ok]
      simp only [Op.deletes, Bool.or_false]
      rcases List.mem_append.mp hmem with hin | hlast
      · have hid : id ∈ insertIds pre := (mem_insertIds_iff pre id).mpr ⟨s, hin⟩
        have hne : id ≠ id₀ := fun e => hfresh (e ▸ hid)
        show ((run StudentMap.empty pre).set id₀ _).lookup id = _
        rw [StudentMap.lookup_set_ne _ _ _ _ hne]
        exact ih hpre hin
      · have heq : Op.insert s id = Op.insert s₀ id₀ := by simpa using hlast
        injection heq with hs hi
        subst hs
        subst hi
        have hnodel : deleteSucceeded StudentMap.empty pre id = false := by
          cases hd : deleteSucceeded StudentMap.empty pre id with
          | false => rfl
          | true => exact absurd (mem_insertIds_of_deleteSucceeded pre hpre id hd) hfresh
        show ((run StudentMap.empty pre).set id _).lookup id = _
        rw [StudentMap.lookup_set_self, hnodel, Bool.or_false]
    | softDelete id₀ =>
      have hin : Op.insert s id ∈ pre := by
        rcases List.mem_append.mp hmem with hin | hlast
        · exact hin
        · simp at hlast
      have hold := ih hpre hin
      show (deleteStudent (run StudentMap.empty pre) id₀).1.lookup id = _
      by_cases hne : id = id₀
      · subst hne
        cases hflag : (s.IsDeleted || deleteSucceeded StudentMap.empty pre id) with
        | false =>
          rw [hflag] at hold
          have hstatus : (deleteStudent (run StudentMap.empty pre) id).2.status = StatusNoContent :=
            (deleteStudent_status_noContent_iff _ _).mpr ⟨_, hold, rfl⟩
          rw [deleteStudent_active hold rfl]
          simp only [Op.deletes, hstatus, decide_True, Bool.and_self, Bool.or_true]
          exact StudentMap.lookup_set_self _ _ _
        | true =>
          rw [hflag] at hold
          rw [deleteStudent_deleted hold rfl, hold, ← Bool.or_assoc, hflag, Bool.true_or]
      · have hne' : ¬ id₀ = id := fun e => hne e.symm
        rw [deleteStudent_lookup_ne _ _ _ hne, hold]
        simp [Op.deletes, hne']

theorem insertIds_insertOps (inserts : List (Student × String)) :
    insertIds (insertOps inserts) = inserts.map Prod.snd := by
  induction inserts with
  | nil => rfl
  | cons p rest ih =>
    show insertIds (Op.insert p.1 p.2 :: insertOps rest) = _
    simp [insertIds, ih]

theorem mem_insertOps_iff (inserts : List (Student × String)) (s : Student) (id : String) :
    Op.insert s id ∈ insertOps inserts ↔ (s, id) ∈ inserts := by
  unfold insertOps
  constructor
  · intro h
    obtain ⟨⟨s', id'⟩, hp, heq⟩ := List.mem_map.mp h
    injection heq with hs hi
    subst hs
    subst hi
    exact hp
  · intro h
    exact List.mem_map.mpr ⟨(s, id), h, rfl⟩

theorem deleteSucceeded_insertOps (m : StudentMap) (inserts : List (Student × String))
    (id : String) : deleteSucceeded m (insertOps inserts) id = false := by
  induction inserts generalizing m with
  | nil => rfl
  | cons p rest ih =>
    show (Op.deletes m (Op.insert p.1 p.2) id
      || deleteSucceeded ((Op.insert p.1 p.2).step m) (insertOps rest) id) = false
    rw [ih]
    rfl

/-! ## C1: get after create -/

/-- C1 (as stated, refuted): a body that decodes with isDeleted true is stored
with the flag still set, so the get that follows the create answers 404 instead
of returning the record. -/
theorem c1_tombstoned_input_not_found :
    (getStudent (createStudent StudentMap.empty (Except.ok annTombstoned) "u1").1 "u1").2.status
        = StatusNotFound
      ∧ (createStudent StudentMap.empty (Except.ok annTombstoned) "u1").1.lookup "u1"
        = some { annTombstoned with EnrollmentNumber := "u1" } := by
  constructor <;> decide

/-- C1 (amended): for every store, every decoded record whose isDeleted is
false and every generated identifier, the get right after the create answers
200 with a record that carries the identifier, the name, age, class and subject
of the input, and isDeleted false. -/
theorem c1_get_after_create (students : StudentMap) (input : Student) (id : String)
    (hactive : input.IsDeleted = false) :
    ∃ r : Student,
      getStudent (createStudent students (Except.ok input) id).1 id
          = ((createStudent students (Except.ok input) id).1, jsonOK (encodeStudent r))
        ∧ r.EnrollmentNumber = id ∧ r.Name = input.Name ∧ r.Age = input.Age
        ∧ r.Class = input.Class ∧ r.Subject = input.Subject ∧ r.IsDeleted = false := by
  refine ⟨{ input with EnrollmentNumber := id }, ?_, rfl, rfl, rfl, rfl, rfl, hactive⟩
  rw [createStudent_ok]
  exact getStudent_active (StudentMap.lookup_set_self _ _ _) hactive

/-- An instance of C1: create Ann from a body that names its own identifier,
then get her by the generated one. -/
theorem c1_get_after_create_witness :
    annWithId.IsDeleted = false ∧
    ∃ r : Student,
      getStudent (createStudent StudentMap.empty (Except.ok annWithId) "u1").1 "u1"
          = ((createStudent StudentMap.empty (Except.ok annWithId) "u1").1,
              jsonOK (encodeStudent r))
        ∧ r.EnrollmentNumber = "u1" ∧ r.Name = annWithId.Name ∧ r.Age = annWithId.Age
        ∧ r.Class = annWithId.Class ∧ r.Subject = annWithId.Subject ∧ r.IsDeleted = false :=
  ⟨rfl, c1_get_after_create StudentMap.empty annWithId "u1" rfl⟩

/-! ## C2: the response of create -/

/-- C2 (as stated, refuted): the success body of create is not the object with
the single key "id"; its single key is "enrollmentNumber". -/
theorem c2_create_body_key_is_not_id :
    (createStudent StudentMap.empty (Except.ok ann) "u1").2.body
        = Body.json (JSON.object [("enrollmentNumber", JSON.string "u1")])
      ∧ (createStudent StudentMap.empty (Except.ok ann) "u1").2.body
        ≠ Body.json (JSON.object [("id", JSON.string "u1")]) := by
  constructor
  · rfl
  · intro h
    have h' : Body.json (JSON.object [("enrollmentNumber", JSON.string "u1")])
        = Body.json (JSON.object [("id", JSON.string "u1")]) := h
    simp at h'

/-- C2 (amended): for a body that decodes as a record, create answers 200 with
the JSON object whose single key is "enrollmentNumber" and whose value is the
generated identifier, and the record is stored under that identifier; for a
body that fails to decode, the answer is 400 and the store is unchanged. -/
theorem c2_create_response (students : StudentMap) (id : String) :
    (∀ student : Student,
        (createStudent students (Except.ok student) id).2
            = { status := StatusOK, contentType := some "application/json",
                body := Body.json (JSON.object [("enrollmentNumber", JSON.string id)]) }
          ∧ (createStudent students (Except.ok student) id).1.lookup id
            = some { student with EnrollmentNumber := id })
      ∧ (∀ err : String,
          (createStudent students (Except.error err) id).2.status = StatusBadRequest
            ∧ (createStudent students (Except.error err) id).1 = students) := by
  refine ⟨fun student => ?_, fun err => ?_⟩
  · rw [createStudent_ok]
    exact ⟨rfl, StudentMap.lookup_set_self _ _ _⟩
  · rw [createStudent_error]
    exact ⟨rfl, rfl⟩

/-! ## C3: list after any sequence of inserts and deletes -/

/-- C3 (as stated, refuted): after the single insert of a record decoded with
isDeleted true, no delete has answered 204 for it, and yet the list is empty:
an inserted record whose delete has not succeeded is missing from it. -/
theorem c3_tombstoned_insert_not_listed :
    (insertIds [Op.insert annTombstoned "u1"]).Nodup
      ∧ Op.insert annTombstoned "u1" ∈ [Op.insert annTombstoned "u1"]
      ∧ deleteSucceeded StudentMap.empty [Op.insert annTombstoned "u1"] "u1" = false
      ∧ (run StudentMap.empty [Op.insert annTombstoned "u1"]).lookup "u1"
          = some { annTombstoned with EnrollmentNumber := "u1" }
      ∧ activeStudents (run StudentMap.empty [Op.insert annTombstoned "u1"]) = none := by
  refine ⟨by decide, by decide, by decide, by decide, by decide⟩

/-- C3 (amended): in every store reached from the empty store by a sequence of
inserts and deletes whose generated identifiers are pairwise distinct, the
list holds exactly the inserted records that were decoded with isDeleted false
and for which no delete has answered 204 (each with its generated identifier);
it never holds a record for whose identifier a delete has answered 204. -/
theorem c3_list_after_calls (ops : List Op) (hdistinct : (insertIds ops).Nodup) :
    (∀ r : Student, r ∈ StudentSlice.toList (activeStudents (run StudentMap.empty ops)) ↔
        ∃ (s : Student) (id : String), Op.insert s id ∈ ops ∧ s.IsDeleted = false
          ∧ deleteSucceeded StudentMap.empty ops id = false
          ∧ r = { s with EnrollmentNumber := id })
      ∧ (∀ r : Student, r ∈ StudentSlice.toList (activeStudents (run StudentMap.empty ops)) →
          deleteSucceeded StudentMap.empty ops r.EnrollmentNumber = false) := by
  have main : ∀ r : Student,
      r ∈ StudentSlice.toList (activeStudents (run StudentMap.empty ops)) ↔
        ∃ (s : Student) (id : String), Op.insert s id ∈ ops ∧ s.IsDeleted = false
          ∧ deleteSucceeded StudentMap.empty ops id = false
          ∧ r = { s with EnrollmentNumber := id } := by
    intro r
    rw [mem_activeStudents]
    constructor
    · rintro ⟨k, hk, hr⟩
      have hkeys : k ∈ insertIds ops := by
        rw [← keys_run ops hdistinct]
        exact StudentMap.mem_keys_of_lookup hk
      obtain ⟨s, hs⟩ := (mem_insertIds_iff ops k).mp hkeys
      have hval := lookup_run_of_insert ops hdistinct s k hs
      have hreq := Option.some.inj (hk.symm.trans hval)
      have hflag : (s.IsDeleted || deleteSucceeded StudentMap.empty ops k) = false := by
        have := congrArg Student.IsDeleted hreq
        rw [hr] at this
        exact this.symm
      rw [Bool.or_eq_false_iff] at hflag
      refine ⟨s, k, hs, hflag.1, hflag.2, ?_⟩
      rw [hreq, hflag.1, hflag.2]
      cases s
      simp_all
    · rintro ⟨s, id, hs, hact, hdel, rfl⟩
      refine ⟨id, ?_, hact⟩
      rw [lookup_run_of_insert ops hdistinct s id hs, hact, hdel]
      cases s
      simp_all
  refine ⟨main, ?_⟩
  intro r hr
  obtain ⟨s, id, _, _, hdel, rfl⟩ := (main r).mp hr
  exact hdel

/-- An instance of C3: two creates and a delete of the first leave the second
record as the only one listed. -/
theorem c3_list_after_calls_witness :
    (insertIds [Op.insert ann "u1", Op.insert ann "u2", Op.softDelete "u1"]).Nodup
      ∧ (∀ r : Student,
          r ∈ StudentSlice.toList (activeStudents
              (run StudentMap.empty [Op.insert ann "u1", Op.insert ann "u2", Op.softDelete "u1"])) ↔
            ∃ (s : Student) (id : String),
              Op.insert s id ∈ [Op.insert ann "u1", Op.insert ann "u2", Op.softDelete "u1"]
                ∧ s.IsDeleted = false
                ∧ deleteSucceeded StudentMap.empty
                    [Op.insert ann "u1", Op.insert ann "u2", Op.softDelete "u1"] id = false
                ∧ r = { s with EnrollmentNumber := id })
      ∧ activeStudents
          (run StudentMap.empty [Op.insert ann "u1", Op.insert ann "u2", Op.softDelete "u1"])
          = some [{ ann with EnrollmentNumber := "u2" }] :=
  ⟨by decide,
    (c3_list_after_calls [Op.insert ann "u1", Op.insert ann "u2", Op.softDelete "u1"]
      (by decide)).1,
    by decide⟩

/-! ## C4: delete twice -/

/-- C4: for every store and every identifier present with isDeleted false, the
first delete answers 204 and a second delete on the resulting store answers
404. -/
theorem c4_delete_twice (students : StudentMap) (id : String) (v : Student)
    (hpresent : students.lookup id = some v) (hactive : v.IsDeleted = false) :
    (deleteStudent students id).2.status = StatusNoContent
      ∧ (deleteStudent (deleteStudent students id).1 id).2.status = StatusNotFound := by
  rw [deleteStudent_active hpresent hactive]
  refine ⟨rfl, ?_⟩
  rw [deleteStudent_deleted (StudentMap.lookup_set_self _ _ _) rfl]
  rfl

/-- The end-to-end scenario for C4: create, delete, delete again. -/
theorem c4_delete_twice_witness :
    oneStudent.lookup "u1" = some { ann with EnrollmentNumber := "u1" }
      ∧ (deleteStudent oneStudent "u1").2.status = StatusNoContent
      ∧ (deleteStudent (deleteStudent oneStudent "u1").1 "u1").2.status = StatusNotFound :=
  ⟨by decide,
    c4_delete_twice oneStudent "u1" { ann with EnrollmentNumber := "u1" } (by decide) rfl⟩

/-! ## C5: get after delete -/

/-- C5: for every store and every identifier, the get evaluated in the store
left by a delete of that identifier answers 404, whether the delete answered
204 or 404. -/
theorem c5_get_after_delete (students : StudentMap) (id : String) :
    (getStudent (deleteStudent students id).1 id).2
        = httpError "Student not found" StatusNotFound
      ∧ (getStudent (deleteStudent students id).1 id).2.status = StatusNotFound := by
  have key : getStudent (deleteStudent students id).1 id
      = ((deleteStudent students id).1, httpError "Student not found" StatusNotFound) := by
    rcases lookup_cases students id with h | ⟨v, h, hv⟩ | ⟨v, h, hv⟩
    · rw [deleteStudent_absent h]
      exact getStudent_absent h
    · rw [deleteStudent_active h hv]
      exact getStudent_deleted (StudentMap.lookup_set_self _ _ _) rfl
    · rw [deleteStudent_deleted h hv]
      exact getStudent_deleted h hv
  rw [key]
  exact ⟨rfl, rfl⟩

/-! ## C6: get -/

/-- C6: for every store and identifier, get answers 200 with the record stored
under the identifier exactly when the identifier is a key and that record's
isDeleted is false; otherwise (key absent, or record tombstoned) it answers
404; in both cases the store is left unchanged. -/
theorem c6_get (students : StudentMap) (id : String) :
    (getStudent students id).1 = students
      ∧ (∀ v : Student, students.lookup id = some v → v.IsDeleted = false →
          (getStudent students id).2 = jsonOK (encodeStudent v))
      ∧ ((getStudent students id).2.status = StatusOK ↔
          ∃ v : Student, students.lookup id = some v ∧ v.IsDeleted = false)
      ∧ ((¬ ∃ v : Student, students.lookup id = some v ∧ v.IsDeleted = false) →
          (getStudent students id).2 = httpError "Student not found" StatusNotFound)
      ∧ ((getStudent students id).2.status = StatusNotFound ↔
          ¬ ∃ v : Student, students.lookup id = some v ∧ v.IsDeleted = false) := by
  rcases lookup_cases students id with h | ⟨v, h, hv⟩ | ⟨v, h, hv⟩
  · have hno := no_active_of_absent h
    rw [getStudent_absent h]
    exact ⟨rfl, fun w hw ha => absurd ⟨w, hw, ha⟩ hno,
      ⟨fun hs => absurd hs status_httpError_notFound_ne_ok, fun hx => absurd hx hno⟩,
      fun _ => rfl, ⟨fun _ => hno, fun _ => rfl⟩⟩
  · rw [getStudent_active h hv]
    refine ⟨rfl, ?_, ⟨fun _ => ⟨v, h, hv⟩, fun _ => rfl⟩, fun hn => absurd ⟨v, h, hv⟩ hn,
      ⟨fun hs => absurd hs (status_jsonOK_ne_notFound _), fun hn => absurd ⟨v, h, hv⟩ hn⟩⟩
    intro w hw _
    rw [Option.some.inj (h.symm.trans hw)]
  · have hno := no_active_of_deleted h hv
    rw [getStudent_deleted h hv]
    exact ⟨rfl, fun w hw ha => absurd ⟨w, hw, ha⟩ hno,
      ⟨fun hs => absurd hs status_httpError_notFound_ne_ok, fun hx => absurd hx hno⟩,
      fun _ => rfl, ⟨fun _ => hno, fun _ => rfl⟩⟩

/-! ## C7: list -/

/-- C7 (as stated, refuted): with no active record the result is the nil slice
and the body written is the JSON value null, not the empty JSON array. -/
theorem c7_empty_list_is_null :
    (getAllStudents StudentMap.empty).2.body = Body.json JSON.null
      ∧ (getAllStudents StudentMap.empty).2.body ≠ Body.json (JSON.array []) := by
  constructor
  · rfl
  · intro h
    have h' : Body.json JSON.null = Body.json (JSON.array []) := h
    simp at h'

/-- C7 (amended): for every store, list answers 200 and leaves the store as it
is; its result holds, for each key whose record has isDeleted false, that
record once, and nothing else (in particular no tombstoned record); the body
is the JSON array of these records when there is one, and when no stored
record is active the result is the nil slice, of length zero, written as the
JSON value null. -/
theorem c7_list (students : StudentMap) :
    (getAllStudents students).1 = students
      ∧ (getAllStudents students).2.status = StatusOK
      ∧ (getAllStudents students).2.body
          = Body.json (encodeStudentSlice (activeStudents students))
      ∧ (∃ ks : List String, ks.Nodup
          ∧ (∀ k : String, k ∈ ks ↔
              ∃ v : Student, students.lookup k = some v ∧ v.IsDeleted = false)
          ∧ StudentSlice.toList (activeStudents students)
              = ks.map (fun k => (students.index k).1))
      ∧ (∀ r : Student, r ∈ StudentSlice.toList (activeStudents students) ↔
          ∃ k : String, students.lookup k = some r ∧ r.IsDeleted = false)
      ∧ ((∃ (k : String) (v : Student), students.lookup k = some v ∧ v.IsDeleted = false) →
          (getAllStudents students).2.body
            = Body.json (JSON.array
                ((StudentSlice.toList (activeStudents students)).map encodeStudent)))
      ∧ ((¬ ∃ (k : String) (v : Student), students.lookup k = some v ∧ v.IsDeleted = false) →
          activeStudents students = none
            ∧ (StudentSlice.toList (activeStudents students)).length = 0
            ∧ (getAllStudents students).2.body = Body.json JSON.null) := by
  refine ⟨rfl, rfl, rfl, ?_, mem_activeStudents students, ?_, ?_⟩
  · refine ⟨keysOf (activeEntries students), nodup_keysOf_activeEntries students, ?_, ?_⟩
    · intro k
      constructor
      · intro hk
        obtain ⟨⟨k', v⟩, he, rfl⟩ := List.mem_map.mp hk
        exact ⟨v, (mem_activeEntries students k' v).mp he⟩
      · rintro ⟨v, hv⟩
        exact List.mem_map.mpr ⟨(k, v), (mem_activeEntries students k v).mpr hv, rfl⟩
    · rw [toList_activeStudents, map_index_keysOf_activeEntries]
  · rintro ⟨k, v, hv⟩
    have hne : activeEntries students ≠ [] :=
      List.ne_nil_of_mem ((mem_activeEntries students k v).mpr hv)
    show Body.json (encodeStudentSlice (activeStudents students)) = _
    rw [toList_activeStudents, activeStudents_eq, if_neg hne]
    rfl
  · intro hno
    have hnil : activeEntries students = [] := by
      apply List.eq_nil_iff_forall_not_mem.mpr
      rintro ⟨k, v⟩ he
      exact hno ⟨k, v, (mem_activeEntries students k v).mp he⟩
    have hnone : activeStudents students = none := by
      rw [activeStudents_eq, if_pos hnil]
    refine ⟨hnone, ?_, ?_⟩
    · rw [hnone]
      rfl
    · show Body.json (encodeStudentSlice (activeStudents students)) = _
      rw [hnone]
      rfl

/-! ## C8: records persist -/

/-- C8: for every store and every single request (a create whose generated
identifier is not already a key, a list, a get, a delete of any identifier),
every key present before is present after, and its record has the same
identifier, name, age, class and subject; its isDeleted, once true, stays
true. -/
theorem c8_records_persist (students : StudentMap) (req : Request)
    (hfresh : ∀ (decoded : Except String Student) (newUUID : String),
      req = Request.create decoded newUUID → newUUID ∉ students.keys)
    (k : String) (v : Student) (hk : students.lookup k = some v) :
    k ∈ (handle students req).1.keys
      ∧ ∃ v' : Student, (handle students req).1.lookup k = some v'
        ∧ v'.EnrollmentNumber = v.EnrollmentNumber ∧ v'.Name = v.Name ∧ v'.Age = v.Age
        ∧ v'.Class = v.Class ∧ v'.Subject = v.Subject
        ∧ (v.IsDeleted = true → v'.IsDeleted = true) := by
  have key : ∃ v' : Student, (handle students req).1.lookup k = some v'
      ∧ v'.EnrollmentNumber = v.EnrollmentNumber ∧ v'.Name = v.Name ∧ v'.Age = v.Age
      ∧ v'.Class = v.Class ∧ v'.Subject = v.Subject
      ∧ (v.IsDeleted = true → v'.IsDeleted = true) := by
    cases req with
    | create decoded newUUID =>
      have hne : k ≠ newUUID := by
        intro e
        exact hfresh decoded newUUID rfl (e ▸ StudentMap.mem_keys_of_lookup hk)
      cases decoded with
      | error err =>
        exact ⟨v, by rw [handle, createStudent_error]; exact hk, rfl, rfl, rfl, rfl, rfl, id⟩
      | ok s =>
        refine ⟨v, ?_, rfl, rfl, rfl, rfl, rfl, id⟩
        rw [handle, createStudent_ok]
        exact (StudentMap.lookup_set_ne _ _ _ _ hne).trans hk
    | list => exact ⟨v, hk, rfl, rfl, rfl, rfl, rfl, id⟩
    | get studentId =>
      refine ⟨v, ?_, rfl, rfl, rfl, rfl, rfl, id⟩
      have hsame : (getStudent students studentId).1 = students := by
        rcases lookup_cases students studentId with h | ⟨w, h, hw⟩ | ⟨w, h, hw⟩
        · rw [getStudent_absent h]
        · rw [getStudent_active h hw]
        · rw [getStudent_deleted h hw]
      rw [handle, hsame]
      exact hk
    | delete studentId =>
      by_cases hne : k = studentId
      · subst hne
        cases hv : v.IsDeleted with
        | false =>
          refine ⟨{ v with IsDeleted := true }, ?_, rfl, rfl, rfl, rfl, rfl, fun _ => rfl⟩
          rw [handle, deleteStudent_active hk hv]
          exact StudentMap.lookup_set_self _ _ _
        | true =>
          refine ⟨v, ?_, rfl, rfl, rfl, rfl, rfl, fun _ => hv⟩
          rw [handle, deleteStudent_deleted hk hv]
          exact hk
      · refine ⟨v, ?_, rfl, rfl, rfl, rfl, rfl, id⟩
        rw [handle, deleteStudent_lookup_ne _ _ _ hne]
        exact hk
  obtain ⟨v', hv', rest⟩ := key
  exact ⟨StudentMap.mem_keys_of_lookup hv', v', hv', rest⟩

/-- An instance of C8: a second create with a fresh identifier leaves the
record under "u1" as it was. -/
theorem c8_records_persist_witness :
    (∀ (decoded : Except String Student) (newUUID : String),
        Request.create (Except.ok annTombstoned) "u2" = Request.create decoded newUUID →
          newUUID ∉ oneStudent.keys)
      ∧ oneStudent.lookup "u1" = some { ann with EnrollmentNumber := "u1" }
      ∧ "u1" ∈ (handle oneStudent (Request.create (Except.ok annTombstoned) "u2")).1.keys
      ∧ ∃ v' : Student,
          (handle oneStudent (Request.create (Except.ok annTombstoned) "u2")).1.lookup "u1"
            = some v'
          ∧ v'.EnrollmentNumber = "u1" ∧ v'.Name = ann.Name ∧ v'.Age = ann.Age
          ∧ v'.Class = ann.Class ∧ v'.Subject = ann.Subject
          ∧ (ann.IsDeleted = true → v'.IsDeleted = true) :=
  have hfresh : ∀ (decoded : Except String Student) (newUUID : String),
      Request.create (Except.ok annTombstoned) "u2" = Request.create decoded newUUID →
        newUUID ∉ oneStudent.keys := by
    intro decoded newUUID h
    injection h with _ hid
    subst hid
    decide
  ⟨hfresh, by decide,
    c8_records_persist oneStudent (Request.create (Except.ok annTombstoned) "u2") hfresh
      "u1" { ann with EnrollmentNumber := "u1" } (by decide)⟩

/-! ## C9: n inserts give n records -/

/-- C9: starting from the empty store, after n inserts whose generated
identifiers are pairwise distinct and no deletes, the store holds exactly n
records, one under each generated identifier and none under any other key;
each insert adds one entry and keeps every earlier one, and running the same
inserts in any other order gives the same records. -/
theorem c9_inserts (inserts : List (Student × String))
    (hdistinct : (inserts.map Prod.snd).Nodup) :
    (run StudentMap.empty (insertOps inserts)).len = inserts.length
      ∧ (run StudentMap.empty (insertOps inserts)).keys.Perm (inserts.map Prod.snd)
      ∧ (∀ (k : String) (v : Student),
          (run StudentMap.empty (insertOps inserts)).lookup k = some v ↔
            ∃ s : Student, (s, k) ∈ inserts ∧ v = { s with EnrollmentNumber := k })
      ∧ (∀ (pre post : List (Student × String)) (s : Student) (id : String),
          inserts = pre ++ (s, id) :: post →
            (run StudentMap.empty (insertOps (pre ++ [(s, id)]))).len
                = (run StudentMap.empty (insertOps pre)).len + 1
              ∧ ∀ (k : String) (v : Student),
                  (run StudentMap.empty (insertOps pre)).lookup k = some v →
                    (run StudentMap.empty (insertOps (pre ++ [(s, id)]))).lookup k = some v)
      ∧ (∀ reordered : List (Student × String), reordered.Perm inserts →
          (run StudentMap.empty (insertOps reordered)).len = inserts.length
            ∧ ∀ k : String,
                (run StudentMap.empty (insertOps reordered)).lookup k
                  = (run StudentMap.empty (insertOps inserts)).lookup k) := by
  have keysEq : ∀ l : List (Student × String), (l.map Prod.snd).Nodup →
      (run StudentMap.empty (insertOps l)).keys = l.map Prod.snd := by
    intro l hl
    rw [← insertIds_insertOps]
    exact keys_run _ (by rw [insertIds_insertOps]; exact hl)
  have lenEq : ∀ l : List (Student × String), (l.map Prod.snd).Nodup →
      (run StudentMap.empty (insertOps l)).len = l.length := by
    intro l hl
    rw [StudentMap.len_eq_length_keys, keysEq l hl, List.length_map]
  have lookupIff : ∀ l : List (Student × String), (l.map Prod.snd).Nodup →
      ∀ (k : String) (v : Student),
        (run StudentMap.empty (insertOps l)).lookup k = some v ↔
          ∃ s : Student, (s, k) ∈ l ∧ v = { s with EnrollmentNumber := k } := by
    intro l hl k v
    have hnd : (insertIds (insertOps l)).Nodup := by
      rw [insertIds_insertOps]
      exact hl
    have hval : ∀ s : Student, (s, k) ∈ l →
        (run StudentMap.empty (insertOps l)).lookup k = some { s with EnrollmentNumber := k } := by
      intro s hs
      rw [lookup_run_of_insert _ hnd s k ((mem_insertOps_iff l s k).mpr hs),
        deleteSucceeded_insertOps, Bool.or_false]
    constructor
    · intro hk
      have hkeys : k ∈ l.map Prod.snd := by
        rw [← keysEq l hl]
        exact StudentMap.mem_keys_of_lookup hk
      obtain ⟨⟨s, k'⟩, hp, rfl⟩ := List.mem_map.mp hkeys
      exact ⟨s, hp, Option.some.inj (hk.symm.trans (hval s hp))⟩
    · rintro ⟨s, hs, rfl⟩
      exact hval s hs
  refine ⟨lenEq inserts hdistinct, (keysEq inserts hdistinct) ▸ List.Perm.refl _,
    lookupIff inserts hdistinct, ?_, ?_⟩
  · intro pre post s id hsplit
    have hall : ((pre ++ [(s, id)]).map Prod.snd ++ post.map Prod.snd).Nodup := by
      have := hdistinct
      rw [hsplit] at this
      simpa using this
    have hsnoc : ((pre ++ [(s, id)]).map Prod.snd).Nodup := (List.nodup_append.mp hall).1
    have hpre : (pre.map Prod.snd).Nodup := by
      rw [List.map_append] at hsnoc
      exact (List.nodup_append.mp hsnoc).1
    refine ⟨?_, ?_⟩
    · rw [lenEq _ hsnoc, lenEq _ hpre]
      simp
    · intro k v hk
      obtain ⟨s', hs', hv⟩ := (lookupIff pre hpre k v).mp hk
      exact (lookupIff _ hsnoc k v).mpr ⟨s', List.mem_append_left _ hs', hv⟩
  · intro reordered hperm
    have hnd' : (reordered.map Prod.snd).Nodup :=
      (List.Perm.nodup_iff (List.Perm.map Prod.snd hperm)).mpr hdistinct
    refine ⟨(lenEq reordered hnd').trans (List.Perm.length_eq hperm), ?_⟩
    intro k
    apply Option.ext
    intro v
    show (run StudentMap.empty (insertOps reordered)).lookup k = some v
      ↔ (run StudentMap.empty (insertOps inserts)).lookup k = some v
    rw [lookupIff reordered hnd' k v, lookupIff inserts hdistinct k v]
    constructor
    · rintro ⟨s, hs, hv⟩
      exact ⟨s, (List.Perm.mem_iff hperm).mp hs, hv⟩
    · rintro ⟨s, hs, hv⟩
      exact ⟨s, (List.Perm.mem_iff hperm).mpr hs, hv⟩

/-- An instance of C9: three creates with distinct identifiers give three
records. -/
theorem c9_inserts_witness :
    ([(ann, "u1"), (annTombstoned, "u2"), (ann, "u3")].map Prod.snd).Nodup
      ∧ (run StudentMap.empty
          (insertOps [(ann, "u1"), (annTombstoned, "u2"), (ann, "u3")])).len = 3
      ∧ (run StudentMap.empty
          (insertOps [(ann, "u1"), (annTombstoned, "u2"), (ann, "u3")])).lookup "u2"
          = some { annTombstoned with EnrollmentNumber := "u2" } :=
  ⟨by decide,
    (c9_inserts [(ann, "u1"), (annTombstoned, "u2"), (ann, "u3")] (by decide)).1,
    by decide⟩

/-! ## C10: delete -/

/-- C10: delete answers 204 exactly when the identifier is a key whose record
has isDeleted false; then the new store has the same keys, holds under the
identifier the old record with isDeleted set, and holds every other entry
unchanged; otherwise it answers 404 and the store is exactly the old one. -/
theorem c10_delete (students : StudentMap) (id : String) :
    ((deleteStudent students id).2.status = StatusNoContent ↔
        ∃ v : Student, students.lookup id = some v ∧ v.IsDeleted = false)
      ∧ ((deleteStudent students id).2.status = StatusNotFound ↔
        ¬ ∃ v : Student, students.lookup id = some v ∧ v.IsDeleted = false)
      ∧ (∀ v : Student, students.lookup id = some v → v.IsDeleted = false →
          (deleteStudent students id).1.lookup id = some { v with IsDeleted := true }
            ∧ (∀ k : String, k ≠ id →
                (deleteStudent students id).1.lookup k = students.lookup k)
            ∧ (deleteStudent students id).1.keys = students.keys
            ∧ (deleteStudent students id).1.len = students.len)
      ∧ ((¬ ∃ v : Student, students.lookup id = some v ∧ v.IsDeleted = false) →
          (deleteStudent students id).1 = students) := by
  rcases lookup_cases students id with h | ⟨v, h, hv⟩ | ⟨v, h, hv⟩
  · have hno := no_active_of_absent h
    rw [deleteStudent_absent h]
    exact ⟨⟨fun hs => absurd hs status_httpError_notFound_ne_noContent, fun hx => absurd hx hno⟩,
      ⟨fun _ => hno, fun _ => rfl⟩, fun w hw ha => absurd ⟨w, hw, ha⟩ hno, fun _ => rfl⟩
  · rw [deleteStudent_active h hv]
    have hk : id ∈ students.keys := StudentMap.mem_keys_of_lookup h
    have hkeys := StudentMap.keys_set_of_mem students id { v with IsDeleted := true } hk
    refine ⟨⟨fun _ => ⟨v, h, hv⟩, fun _ => rfl⟩,
      ⟨fun hs => absurd hs (show StatusNoContent ≠ StatusNotFound by decide),
        fun hn => absurd ⟨v, h, hv⟩ hn⟩, ?_,
      fun hn => absurd ⟨v, h, hv⟩ hn⟩
    intro w hw _
    rw [← Option.some.inj (h.symm.trans hw)]
    refine ⟨StudentMap.lookup_set_self _ _ _,
      fun k hne => StudentMap.lookup_set_ne _ _ _ _ hne, hkeys, ?_⟩
    rw [StudentMap.len_eq_length_keys, StudentMap.len_eq_length_keys, hkeys]
  · have hno := no_active_of_deleted h hv
    rw [deleteStudent_deleted h hv]
    exact ⟨⟨fun hs => absurd hs status_httpError_notFound_ne_noContent, fun hx => absurd hx hno⟩,
      ⟨fun _ => hno, fun _ => rfl⟩, fun w hw ha => absurd ⟨w, hw, ha⟩ hno, fun _ => rfl⟩

end StudentApi
